import Mathlib

/-!
Verification of the generic attribute-grammar parsing layer (meta_types.rs).

The embedding models a proc-macro token stream as a list of token trees
(identifiers, punctuation, integer literals, delimited groups), each carrying
a source span modelled as a natural number.  Parsers are functions from a
token list to either an error or a parsed value together with the remaining
tokens, mirroring syn's `Parse` trait over a `ParseStream`.  A whole-stream
parse (syn's `parse2`) additionally requires that every token — including the
content of delimited groups handed to a payload grammar — is consumed.
-/

/-- Bracket kinds of a delimited token group. -/
inductive Delim where
  | paren
  | brace
  | bracket
deriving DecidableEq, Repr

/-- A token tree: identifier, punctuation character, integer literal
(value, suffix text), or a delimited group of nested tokens.
Every token carries a span (source position), modelled as a `Nat`. -/
inductive Tok where
  | ident (name : String) (span : Nat)
  | punct (ch : Char) (span : Nat)
  | litInt (val : Nat) (sfx : String) (span : Nat)
  | group (delim : Delim) (content : List Tok) (span : Nat)
deriving Repr

/-- The span carried by a token (for groups, the span of the whole group). -/
def tokSpan : Tok → Nat
  | .ident _ sp => sp
  | .punct _ sp => sp
  | .litInt _ _ sp => sp
  | .group _ _ sp => sp

/-- A parse error: a message and the span it points at. -/
structure ParseError where
  msg : String
  span : Nat
deriving DecidableEq, Repr

/-- A parser over a token stream: consumes a prefix of the tokens and
returns the parsed value and the rest, or an error (syn's `Parse`). -/
def P (α : Type) : Type := List Tok → Except ParseError (α × List Tok)

/-- Whole-stream parsing (syn's `parse2`): the parser must consume every
token; leftover tokens are an "unexpected token" error. -/
def parse2 (p : P α) (ts : List Tok) : Except ParseError α :=
  match p ts with
  | .ok (a, []) => .ok a
  | .ok (_, t :: _) => .error ⟨"unexpected token", tokSpan t⟩
  | .error e => .error e

/-- Parser for a custom keyword (syn's `custom_keyword!` types): succeeds
exactly when the next token is an identifier with the given text, and
returns that identifier token (which carries the keyword's span). -/
def parseKeyword (name : String) : P Tok := fun ts =>
  match ts with
  | Tok.ident n sp :: rest =>
    if n = name then .ok (Tok.ident n sp, rest)
    else .error ⟨"expected keyword " ++ name, sp⟩
  | t :: _ => .error ⟨"expected keyword " ++ name, tokSpan t⟩
  | [] => .error ⟨"expected keyword " ++ name, 0⟩

/-- Parser for a literal (syn's `Lit`), restricted to the integer literals
used by this grammar's tests; returns the literal token itself. -/
def parseLit : P Tok := fun ts =>
  match ts with
  | Tok.litInt v sfx sp :: rest => .ok (Tok.litInt v sfx sp, rest)
  | t :: _ => .error ⟨"expected literal", tokSpan t⟩
  | [] => .error ⟨"expected literal", 0⟩

/-- The `ToTokens` implementation for a literal token: append the token to the stream. -/
def litToTokens (t : Tok) (stream : List Tok) : List Tok := stream ++ [t]

/-- The parser `p` parses exactly the tokens `ts` into `a`: whatever suffix
follows, it consumes `ts` and leaves the suffix untouched.  This is the
locality contract satisfied by the opaque payload grammars (keywords,
literals, types, expressions) that the generic layer delegates to. -/
def ParsesExactly (p : P α) (ts : List Tok) (a : α) : Prop :=
  ∀ rest, p (ts ++ rest) = Except.ok (a, rest)

/-- Printed form of a token list, one token per word, groups printed with
their delimiters (proc-macro2's `to_string`: spans do not appear). -/
def printToks : List Tok → String
  | [] => ""
  | Tok.ident n _ :: ts => n ++ " " ++ printToks ts
  | Tok.punct c _ :: ts => c.toString ++ " " ++ printToks ts
  | Tok.litInt v sfx _ :: ts => toString v ++ sfx ++ " " ++ printToks ts
  | Tok.group Delim.paren inner _ :: ts =>
      "( " ++ printToks inner ++ ") " ++ printToks ts
  | Tok.group Delim.brace inner _ :: ts =>
      "\x7b " ++ printToks inner ++ "\x7d " ++ printToks ts
  | Tok.group Delim.bracket inner _ :: ts =>
      "[ " ++ printToks inner ++ "] " ++ printToks ts

/-- Whether an identifier with the given name occurs anywhere in a token
list, including inside nested groups. -/
def containsIdent (name : String) : List Tok → Bool
  | [] => false
  | Tok.ident n _ :: ts => n == name || containsIdent name ts
  | Tok.group _ inner _ :: ts => containsIdent name inner || containsIdent name ts
  | _ :: ts => containsIdent name ts

/-- Comma-separated sequence parsing with explicit fuel
(syn's `Punctuated::parse_terminated` loop): empty input is an empty
sequence; otherwise parse one item, then stop if the input is exhausted,
or consume a separating comma and continue (so a trailing comma followed
by end of input is accepted). -/
def parseTerminatedFuel (p : P α) : Nat → List Tok → Except ParseError (List α)
  | _, [] => .ok []
  | 0, _ :: _ => .error ⟨"recursion limit", 0⟩
  | fuel + 1, t :: ts =>
    match p (t :: ts) with
    | .error e => .error e
    | .ok (a, rest) =>
      match rest with
      | [] => .ok [a]
      | Tok.punct ',' _ :: rest2 =>
        match parseTerminatedFuel p fuel rest2 with
        | .ok as => .ok (a :: as)
        | .error e => .error e
      | t2 :: _ => .error ⟨"expected comma", tokSpan t2⟩

/-- Running `parse_terminated` over a bounded group content: the fuel is one more
than the token count, which the termination argument below shows is never
exhausted when every item consumes at least one token. -/
def parseTerminated (p : P α) (ts : List Tok) : Except ParseError (List α) :=
  parseTerminatedFuel p (ts.length + 1) ts

/-- A keyword paired with a single payload value (`MetaValue<Keyword, Value>`). -/
structure MetaValue (κ V : Type) where
  ident : κ
  value : V

/-- Parsing for `MetaValue` (`<MetaValue as Parse>::parse`): parse the keyword; if the next token is a
parenthesized group, parse the payload from the group's content (which the
surrounding `parse2` requires to be consumed completely); otherwise require
an `=` token followed by the payload. -/
def MetaValue.parse (pk : P κ) (pv : P V) : P (MetaValue κ V) := fun ts =>
  match pk ts with
  | .error e => .error e
  | .ok (id, ts1) =>
    match ts1 with
    | Tok.group Delim.paren content _ :: rest =>
      match pv content with
      | .ok (v, []) => .ok (⟨id, v⟩, rest)
      | .ok (_, t :: _) => .error ⟨"unexpected token", tokSpan t⟩
      | .error e => .error e
    | Tok.punct '=' _ :: rest =>
      match pv rest with
      | .ok (v, rest2) => .ok (⟨id, v⟩, rest2)
      | .error e => .error e
    | t :: _ => .error ⟨"expected equals", tokSpan t⟩
    | [] => .error ⟨"expected equals", 0⟩

/-- Conversion `impl From<MetaValue> for TokenStream`: `value.value.into_token_stream()`
— only the payload's tokens, never the keyword.  The payload's `ToTokens`
implementation is modelled as the appending function `vtt`; its
`into_token_stream` writes onto an empty stream. -/
def TokenStream.fromMetaValue (vtt : V → List Tok → List Tok) (m : MetaValue κ V) :
    List Tok :=
  vtt m.value []

/-- Emission `<MetaValue as ToTokens>::to_tokens`: delegate to the payload's
`to_tokens`, writing onto the given stream. -/
def MetaValue.to_tokens (vtt : V → List Tok → List Tok) (m : MetaValue κ V)
    (tokens : List Tok) : List Tok :=
  vtt m.value tokens

/-- The blanket `ToTokens::into_token_stream` method for `MetaValue`:
collect `to_tokens` into a fresh empty stream. -/
def MetaValue.into_token_stream (vtt : V → List Tok → List Tok)
    (m : MetaValue κ V) : List Tok :=
  MetaValue.to_tokens vtt m []

/-- The accessor `<MetaValue as KeywordToken>::keyword_span`: the span of the keyword
token, not of the payload. -/
def MetaValue.keyword_span (m : MetaValue Tok V) : Nat := tokSpan m.ident

/-- A keyword followed by a parenthesized comma-separated item list
(`MetaList<Keyword, ItemType>`). -/
structure MetaList (κ α : Type) where
  ident : κ
  fields : List α

/-- Parsing for `MetaList` (`<MetaList as Parse>::parse`): parse the keyword, require a parenthesized
group (any other token is a wrong-delimiter error), and parse the group's
content as a terminated item sequence. -/
def MetaList.parse (pk : P κ) (pi : P α) : P (MetaList κ α) := fun ts =>
  match pk ts with
  | .error e => .error e
  | .ok (id, ts1) =>
    match ts1 with
    | Tok.group Delim.paren content _ :: rest =>
      match parseTerminated pi content with
      | .ok fs => .ok (⟨id, fs⟩, rest)
      | .error e => .error e
    | t :: _ => .error ⟨"expected parentheses", tokSpan t⟩
    | [] => .error ⟨"expected parentheses", 0⟩

/-- The accessor `<MetaList as KeywordToken>::keyword_span`. -/
def MetaList.keyword_span (m : MetaList Tok α) : Nat := tokSpan m.ident

/-- The two bracket alternatives of an enclosed list (`Enclosure`). -/
inductive Enclosure (π β : Type) where
  | Paren (fields : List π)
  | Brace (fields : List β)

/-- A keyword followed by either a parenthesized or a braced item list
(`MetaEnclosedList<Keyword, ParenItemType, BraceItemType>`). -/
structure MetaEnclosedList (κ π β : Type) where
  ident : κ
  list : Enclosure π β

/-- Parsing for `MetaEnclosedList` (`<MetaEnclosedList as Parse>::parse`): parse the keyword, then one token
of lookahead decides the branch — a parenthesized group commits to the
`Paren` item grammar, a braced group commits to the `Brace` item grammar,
and anything else (a square-bracketed group included) is an error naming
both accepted alternatives. -/
def MetaEnclosedList.parse (pk : P κ) (pp : P π) (pb : P β) :
    P (MetaEnclosedList κ π β) := fun ts =>
  match pk ts with
  | .error e => .error e
  | .ok (id, ts1) =>
    match ts1 with
    | Tok.group Delim.paren content _ :: rest =>
      match parseTerminated pp content with
      | .ok fs => .ok (⟨id, Enclosure.Paren fs⟩, rest)
      | .error e => .error e
    | Tok.group Delim.brace content _ :: rest =>
      match parseTerminated pb content with
      | .ok fs => .ok (⟨id, Enclosure.Brace fs⟩, rest)
      | .error e => .error e
    | t :: _ => .error ⟨"expected parentheses or curly braces", tokSpan t⟩
    | [] => .error ⟨"expected parentheses or curly braces", 0⟩

/-- A name, a type annotation, and an optional default expression
(`IdentTypeMaybeDefault`): the default is `none` or `some`, never an
empty-expression sentinel. -/
structure IdentTypeMaybeDefault (τ ε : Type) where
  ident : Tok
  ty : τ
  default : Option ε

/-- Parsing for `IdentTypeMaybeDefault`: identifier, `:`, type; then,
only if the next token is `=`, consume it and require an expression. -/
def IdentTypeMaybeDefault.parse (pt : P τ) (pe : P ε) :
    P (IdentTypeMaybeDefault τ ε) := fun ts =>
  match ts with
  | Tok.ident n isp :: ts1 =>
    match ts1 with
    | Tok.punct ':' _ :: ts2 =>
      match pt ts2 with
      | .error e => .error e
      | .ok (ty, ts3) =>
        match ts3 with
        | Tok.punct '=' _ :: ts4 =>
          match pe ts4 with
          | .error e => .error e
          | .ok (d, ts5) => .ok (⟨Tok.ident n isp, ty, some d⟩, ts5)
        | _ => .ok (⟨Tok.ident n isp, ty, none⟩, ts3)
    | t :: _ => .error ⟨"expected colon", tokSpan t⟩
    | [] => .error ⟨"expected colon", 0⟩
  | t :: _ => .error ⟨"expected identifier", tokSpan t⟩
  | [] => .error ⟨"expected identifier", 0⟩

/-- A parenthesized item list with no leading keyword (`MetaAttrList<P>`). -/
structure MetaAttrList (α : Type) where
  fields : List α

/-- Parsing for `MetaAttrList` (`<MetaAttrList as Parse>::parse`): require a parenthesized group and
parse its content as a terminated item sequence. -/
def MetaAttrList.parse (pi : P α) : P (MetaAttrList α) := fun ts =>
  match ts with
  | Tok.group Delim.paren content _ :: rest =>
    match parseTerminated pi content with
    | .ok fs => .ok (⟨fs⟩, rest)
    | .error e => .error e
  | t :: _ => .error ⟨"expected parentheses", tokSpan t⟩
  | [] => .error ⟨"expected parentheses", 0⟩

/-- Interleave item token lists with separating commas (all separators at
the given span): the source form `a, b, c` of a list body. -/
def joinComma (csp : Nat) : List (List Tok) → List Tok
  | [] => []
  | [ts] => ts
  | ts :: ts2 :: rest => ts ++ Tok.punct ',' csp :: joinComma csp (ts2 :: rest)

theorem parseTerminatedFuel_nil (p : P α) (fuel : Nat) :
    parseTerminatedFuel p fuel [] = Except.ok [] := by
  cases fuel <;> rfl

theorem parseTerminatedFuel_join (p : P α) (csp : Nat) :
    ∀ (prs : List (List Tok × α)) (fuel : Nat),
      (∀ pr ∈ prs, ParsesExactly p pr.1 pr.2 ∧ pr.1 ≠ []) →
      (joinComma csp (prs.map Prod.fst)).length < fuel →
      parseTerminatedFuel p fuel (joinComma csp (prs.map Prod.fst)) =
        Except.ok (prs.map Prod.snd) := by
  intro prs
  induction prs with
  | nil =>
    intro fuel _ _
    simpa [joinComma] using parseTerminatedFuel_nil p fuel
  | cons hd tl ih =>
    obtain ⟨hts, ha⟩ := hd
    intro fuel hall hlen
    obtain ⟨hpe, hne⟩ := hall (hts, ha) (List.mem_cons_self _ _)
    obtain ⟨t, ts', hht⟩ := List.exists_cons_of_ne_nil hne
    subst hht
    cases tl with
    | nil =>
      simp only [List.map_cons, List.map_nil, joinComma] at hlen ⊢
      have hp : p (t :: ts') = Except.ok (ha, []) := by simpa using hpe []
      cases fuel with
      | zero => omega
      | succ f => simp [parseTerminatedFuel, hp]
    | cons x xs =>
      simp only [List.map_cons, joinComma, List.cons_append] at hlen ⊢
      have hp :
          p (t :: (ts' ++
              Tok.punct ',' csp :: joinComma csp (x.1 :: xs.map Prod.fst))) =
            Except.ok (ha,
              Tok.punct ',' csp :: joinComma csp (x.1 :: xs.map Prod.fst)) := by
        simpa using hpe (Tok.punct ',' csp :: joinComma csp (x.1 :: xs.map Prod.fst))
      simp only [List.length_cons, List.length_append] at hlen
      cases fuel with
      | zero => omega
      | succ f =>
        have htail : ∀ pr ∈ x :: xs, ParsesExactly p pr.1 pr.2 ∧ pr.1 ≠ [] :=
          fun pr hpr => hall pr (List.mem_cons_of_mem _ hpr)
        have ihr := ih f htail (by simp only [List.map_cons]; omega)
        simp only [List.map_cons] at ihr
        simp [parseTerminatedFuel, hp, ihr]

theorem parseTerminatedFuel_join_trailing (p : P α) (csp tsp : Nat) :
    ∀ (prs : List (List Tok × α)) (fuel : Nat),
      (∀ pr ∈ prs, ParsesExactly p pr.1 pr.2 ∧ pr.1 ≠ []) →
      (joinComma csp (prs.map Prod.fst)).length + 1 < fuel →
      prs ≠ [] →
      parseTerminatedFuel p fuel
          (joinComma csp (prs.map Prod.fst) ++ [Tok.punct ',' tsp]) =
        Except.ok (prs.map Prod.snd) := by
  intro prs
  induction prs with
  | nil => intro fuel _ _ hne; exact absurd rfl hne
  | cons hd tl ih =>
    obtain ⟨hts, ha⟩ := hd
    intro fuel hall hlen _
    obtain ⟨hpe, hne⟩ := hall (hts, ha) (List.mem_cons_self _ _)
    obtain ⟨t, ts', hht⟩ := List.exists_cons_of_ne_nil hne
    subst hht
    cases tl with
    | nil =>
      simp only [List.map_cons, List.map_nil, joinComma, List.cons_append] at hlen ⊢
      have hp : p (t :: (ts' ++ [Tok.punct ',' tsp])) =
          Except.ok (ha, [Tok.punct ',' tsp]) := by
        simpa using hpe [Tok.punct ',' tsp]
      simp only [List.length_cons, List.length_append] at hlen
      cases fuel with
      | zero => omega
      | succ f => simp [parseTerminatedFuel, hp, parseTerminatedFuel_nil]
    | cons x xs =>
      simp only [List.map_cons, joinComma, List.cons_append, List.append_assoc] at hlen ⊢
      have hp :
          p (t :: (ts' ++
              Tok.punct ',' csp ::
                (joinComma csp (x.1 :: xs.map Prod.fst) ++ [Tok.punct ',' tsp]))) =
            Except.ok (ha,
              Tok.punct ',' csp ::
                (joinComma csp (x.1 :: xs.map Prod.fst) ++ [Tok.punct ',' tsp])) := by
        simpa using
          hpe (Tok.punct ',' csp ::
            (joinComma csp (x.1 :: xs.map Prod.fst) ++ [Tok.punct ',' tsp]))
      simp only [List.length_cons, List.length_append] at hlen
      cases fuel with
      | zero => omega
      | succ f =>
        have htail : ∀ pr ∈ x :: xs, ParsesExactly p pr.1 pr.2 ∧ pr.1 ≠ [] :=
          fun pr hpr => hall pr (List.mem_cons_of_mem _ hpr)
        have ihr := ih f htail
          (by simp only [List.map_cons, List.length_append]; omega)
          (by simp)
        simp only [List.map_cons] at ihr
        simp [parseTerminatedFuel, hp, ihr]

theorem parseTerminated_joinComma (p : P α) (csp : Nat)
    (prs : List (List Tok × α))
    (h : ∀ pr ∈ prs, ParsesExactly p pr.1 pr.2 ∧ pr.1 ≠ []) :
    parseTerminated p (joinComma csp (prs.map Prod.fst)) =
      Except.ok (prs.map Prod.snd) :=
  parseTerminatedFuel_join p csp prs _ h (Nat.lt_succ_self _)

theorem parseTerminated_joinComma_trailing (p : P α) (csp tsp : Nat)
    (prs : List (List Tok × α)) (hne : prs ≠ [])
    (h : ∀ pr ∈ prs, ParsesExactly p pr.1 pr.2 ∧ pr.1 ≠ []) :
    parseTerminated p (joinComma csp (prs.map Prod.fst) ++ [Tok.punct ',' tsp]) =
      Except.ok (prs.map Prod.snd) := by
  unfold parseTerminated
  apply parseTerminatedFuel_join_trailing p csp tsp prs _ h _ hne
  simp [List.length_append]

/-- Keyword text of the test grammar `kw::test`. -/
def kwTest : String := "test"

/-- Keyword text of the test grammar `kw::test_list`. -/
def kwTestList : String := "test_list"

/-- Keyword text of the test grammar `kw::test_enclosed_list`. -/
def kwTestEnclosedList : String := "test_enclosed_list"

/-- The integer-literal suffix `u8`. -/
def sfxU8 : String := "u8"

/-- An identifier name used as a field name in witnesses. -/
def nameFoo : String := "foo"

/-- Claim C1: for every keyword grammar and payload grammar, parsing the
token stream `K(V)` and parsing `K = V` with `MetaValue::parse` both
succeed and produce structurally equal nodes — the same keyword and the
same payload value. -/
theorem metaValue_syntax_equivalence
    (pk : P κ) (kts : List Tok) (k : κ) (hk : ParsesExactly pk kts k)
    (pv : P V) (tv : List Tok) (v : V) (hv : pv tv = Except.ok (v, []))
    (gsp esp : Nat) :
    parse2 (MetaValue.parse pk pv) (kts ++ [Tok.group Delim.paren tv gsp]) =
      Except.ok ⟨k, v⟩ ∧
    parse2 (MetaValue.parse pk pv) (kts ++ Tok.punct '=' esp :: tv) =
      Except.ok ⟨k, v⟩ := by
  constructor
  · simp [parse2, MetaValue.parse, hk [Tok.group Delim.paren tv gsp], hv]
  · simp [parse2, MetaValue.parse, hk (Tok.punct '=' esp :: tv), hv]

theorem metaValue_syntax_equivalence_witness :
    parseLit [Tok.litInt 3 sfxU8 2] = Except.ok (Tok.litInt 3 sfxU8 2, []) ∧
    parse2 (MetaValue.parse (parseKeyword kwTest) parseLit)
      [Tok.ident kwTest 1, Tok.group Delim.paren [Tok.litInt 3 sfxU8 2] 3] =
      Except.ok ⟨Tok.ident kwTest 1, Tok.litInt 3 sfxU8 2⟩ ∧
    parse2 (MetaValue.parse (parseKeyword kwTest) parseLit)
      [Tok.ident kwTest 1, Tok.punct '=' 4, Tok.litInt 3 sfxU8 2] =
      Except.ok ⟨Tok.ident kwTest 1, Tok.litInt 3 sfxU8 2⟩ :=
  ⟨rfl,
   (metaValue_syntax_equivalence (parseKeyword kwTest) [Tok.ident kwTest 1]
      (Tok.ident kwTest 1) (fun rest => by simp [parseKeyword])
      parseLit [Tok.litInt 3 sfxU8 2] (Tok.litInt 3 sfxU8 2) rfl 3 4).1,
   (metaValue_syntax_equivalence (parseKeyword kwTest) [Tok.ident kwTest 1]
      (Tok.ident kwTest 1) (fun rest => by simp [parseKeyword])
      parseLit [Tok.litInt 3 sfxU8 2] (Tok.litInt 3 sfxU8 2) rfl 3 4).2⟩

/-- Claim C2: for a `MetaValue` node successfully parsed (in either surface
form) with payload tokens `tv`, the `From<MetaValue> for TokenStream`
conversion produces exactly the payload's emitted tokens and nothing else:
its printed form equals the printed form of `tv` (given the payload
grammar's own re-emission fidelity), the keyword identifier does not occur
in the output, and the output is independent of the keyword entirely. -/
theorem metaValue_reemission_fidelity
    (kw : String) (kwsp : Nat) (pv : P V) (tv : List Tok) (v : V)
    (hv : pv tv = Except.ok (v, []))
    (vtt : V → List Tok → List Tok)
    (hfid : printToks (vtt v []) = printToks tv)
    (hkw : containsIdent kw (vtt v []) = false)
    (gsp esp : Nat) :
    parse2 (MetaValue.parse (parseKeyword kw) pv)
        (Tok.ident kw kwsp :: [Tok.group Delim.paren tv gsp]) =
      Except.ok ⟨Tok.ident kw kwsp, v⟩ ∧
    parse2 (MetaValue.parse (parseKeyword kw) pv)
        (Tok.ident kw kwsp :: Tok.punct '=' esp :: tv) =
      Except.ok ⟨Tok.ident kw kwsp, v⟩ ∧
    TokenStream.fromMetaValue vtt (⟨Tok.ident kw kwsp, v⟩ : MetaValue Tok V) =
      vtt v [] ∧
    printToks
        (TokenStream.fromMetaValue vtt (⟨Tok.ident kw kwsp, v⟩ : MetaValue Tok V)) =
      printToks tv ∧
    containsIdent kw
        (TokenStream.fromMetaValue vtt (⟨Tok.ident kw kwsp, v⟩ : MetaValue Tok V)) =
      false ∧
    ∀ k2 : Tok,
      TokenStream.fromMetaValue vtt (⟨k2, v⟩ : MetaValue Tok V) =
        TokenStream.fromMetaValue vtt (⟨Tok.ident kw kwsp, v⟩ : MetaValue Tok V) := by
  have hk : ∀ rest, parseKeyword kw (Tok.ident kw kwsp :: rest) =
      Except.ok (Tok.ident kw kwsp, rest) :=
    fun rest => by simp [parseKeyword]
  refine ⟨?_, ?_, rfl, hfid, hkw, fun k2 => rfl⟩
  · simp [parse2, MetaValue.parse, hk, hv]
  · simp [parse2, MetaValue.parse, hk, hv]

theorem metaValue_reemission_fidelity_witness :
    parseLit [Tok.litInt 0 sfxU8 7] = Except.ok (Tok.litInt 0 sfxU8 7, []) ∧
    parse2 (MetaValue.parse (parseKeyword kwTest) parseLit)
      [Tok.ident kwTest 1, Tok.punct '=' 4, Tok.litInt 0 sfxU8 7] =
      Except.ok ⟨Tok.ident kwTest 1, Tok.litInt 0 sfxU8 7⟩ ∧
    printToks
        (TokenStream.fromMetaValue litToTokens
          (⟨Tok.ident kwTest 1, Tok.litInt 0 sfxU8 7⟩ : MetaValue Tok Tok)) =
      printToks [Tok.litInt 0 sfxU8 7] ∧
    containsIdent kwTest
        (TokenStream.fromMetaValue litToTokens
          (⟨Tok.ident kwTest 1, Tok.litInt 0 sfxU8 7⟩ : MetaValue Tok Tok)) =
      false := by
  have h := metaValue_reemission_fidelity kwTest 1 parseLit
    [Tok.litInt 0 sfxU8 7] (Tok.litInt 0 sfxU8 7) rfl litToTokens rfl
    (by simp [containsIdent, litToTokens, kwTest]) 3 4
  exact ⟨rfl, h.2.1, h.2.2.2.1, h.2.2.2.2.1⟩

/-- Claim C3: a `MetaValue` node parsed from tokens whose keyword carries
span `kwsp` reports `keyword_span = kwsp`, whichever of the two surface
forms was parsed, and independently of the payload's spans. -/
theorem metaValue_keyword_span_position
    (kw : String) (kwsp : Nat) (pv : P V) (tv : List Tok) (v : V)
    (hv : pv tv = Except.ok (v, [])) (gsp esp : Nat) :
    ∃ node : MetaValue Tok V,
      parse2 (MetaValue.parse (parseKeyword kw) pv)
        (Tok.ident kw kwsp :: [Tok.group Delim.paren tv gsp]) = Except.ok node ∧
      parse2 (MetaValue.parse (parseKeyword kw) pv)
        (Tok.ident kw kwsp :: Tok.punct '=' esp :: tv) = Except.ok node ∧
      node.keyword_span = kwsp := by
  have hk : ∀ rest, parseKeyword kw (Tok.ident kw kwsp :: rest) =
      Except.ok (Tok.ident kw kwsp, rest) :=
    fun rest => by simp [parseKeyword]
  refine ⟨⟨Tok.ident kw kwsp, v⟩, ?_, ?_, rfl⟩
  · simp [parse2, MetaValue.parse, hk, hv]
  · simp [parse2, MetaValue.parse, hk, hv]

theorem metaValue_keyword_span_position_witness :
    parseLit [Tok.litInt 0 sfxU8 9] = Except.ok (Tok.litInt 0 sfxU8 9, []) ∧
    ∃ node : MetaValue Tok Tok,
      parse2 (MetaValue.parse (parseKeyword kwTest) parseLit)
        [Tok.ident kwTest 5, Tok.group Delim.paren [Tok.litInt 0 sfxU8 9] 6] =
        Except.ok node ∧
      parse2 (MetaValue.parse (parseKeyword kwTest) parseLit)
        [Tok.ident kwTest 5, Tok.punct '=' 8, Tok.litInt 0 sfxU8 9] =
        Except.ok node ∧
      node.keyword_span = 5 :=
  ⟨rfl, metaValue_keyword_span_position kwTest 5 parseLit
    [Tok.litInt 0 sfxU8 9] (Tok.litInt 0 sfxU8 9) rfl 6 8⟩

/-- Claim C10: the two token-emission interfaces of `MetaValue` agree — the
`From<MetaValue> for TokenStream` conversion equals the stream collected by
the node's `ToTokens` implementation, and `to_tokens` only ever appends the
payload's tokens to the given stream (assuming the payload's `ToTokens`
satisfies the appending contract). -/
theorem metaValue_emission_interfaces_agree
    (vtt : V → List Tok → List Tok) (m : MetaValue κ V)
    (happ : ∀ v s, vtt v s = s ++ vtt v []) :
    TokenStream.fromMetaValue vtt m = MetaValue.into_token_stream vtt m ∧
    ∀ s, MetaValue.to_tokens vtt m s = s ++ TokenStream.fromMetaValue vtt m := by
  refine ⟨rfl, fun s => ?_⟩
  simpa [MetaValue.to_tokens, TokenStream.fromMetaValue] using happ m.value s

theorem metaValue_emission_interfaces_agree_witness :
    TokenStream.fromMetaValue litToTokens
        (⟨Tok.ident kwTest 0, Tok.litInt 0 sfxU8 1⟩ : MetaValue Tok Tok) =
      MetaValue.into_token_stream litToTokens
        (⟨Tok.ident kwTest 0, Tok.litInt 0 sfxU8 1⟩ : MetaValue Tok Tok) ∧
    MetaValue.to_tokens litToTokens
        (⟨Tok.ident kwTest 0, Tok.litInt 0 sfxU8 1⟩ : MetaValue Tok Tok)
        [Tok.punct '#' 2] =
      [Tok.punct '#' 2] ++
        TokenStream.fromMetaValue litToTokens
          (⟨Tok.ident kwTest 0, Tok.litInt 0 sfxU8 1⟩ : MetaValue Tok Tok) :=
  ⟨(metaValue_emission_interfaces_agree litToTokens
      (⟨Tok.ident kwTest 0, Tok.litInt 0 sfxU8 1⟩ : MetaValue Tok Tok)
      (fun _ _ => rfl)).1,
   (metaValue_emission_interfaces_agree litToTokens
      (⟨Tok.ident kwTest 0, Tok.litInt 0 sfxU8 1⟩ : MetaValue Tok Tok)
      (fun _ _ => rfl)).2 [Tok.punct '#' 2]⟩


/-- Claim C4: every list-bearing grammar — `MetaList`, `MetaEnclosedList`
with either bracket kind, and `MetaAttrList` — accepts an empty bracket
group and produces a node with zero items. -/
theorem list_grammars_empty_ok
    (pk : P κ) (kts : List Tok) (k : κ) (hk : ParsesExactly pk kts k)
    (pi : P α) (pb : P β) (gsp : Nat) :
    parse2 (MetaList.parse pk pi) (kts ++ [Tok.group Delim.paren [] gsp]) =
      Except.ok ⟨k, []⟩ ∧
    parse2 (MetaEnclosedList.parse pk pi pb)
        (kts ++ [Tok.group Delim.paren [] gsp]) =
      Except.ok ⟨k, Enclosure.Paren []⟩ ∧
    parse2 (MetaEnclosedList.parse pk pi pb)
        (kts ++ [Tok.group Delim.brace [] gsp]) =
      Except.ok ⟨k, Enclosure.Brace []⟩ ∧
    parse2 (MetaAttrList.parse pi) [Tok.group Delim.paren [] gsp] =
      Except.ok ⟨[]⟩ := by
  refine ⟨?_, ?_, ?_, ?_⟩ <;>
    simp [parse2, MetaList.parse, MetaEnclosedList.parse, MetaAttrList.parse,
      hk [Tok.group Delim.paren [] gsp], hk [Tok.group Delim.brace [] gsp],
      parseTerminated, parseTerminatedFuel_nil]

theorem list_grammars_empty_ok_witness :
    parse2 (MetaList.parse (parseKeyword kwTestList) parseLit)
      [Tok.ident kwTestList 0, Tok.group Delim.paren [] 1] =
      Except.ok ⟨Tok.ident kwTestList 0, []⟩ ∧
    parse2 (MetaEnclosedList.parse (parseKeyword kwTestEnclosedList) parseLit parseLit)
      [Tok.ident kwTestEnclosedList 0, Tok.group Delim.paren [] 1] =
      Except.ok ⟨Tok.ident kwTestEnclosedList 0, Enclosure.Paren []⟩ ∧
    parse2 (MetaEnclosedList.parse (parseKeyword kwTestEnclosedList) parseLit parseLit)
      [Tok.ident kwTestEnclosedList 0, Tok.group Delim.brace [] 1] =
      Except.ok ⟨Tok.ident kwTestEnclosedList 0, Enclosure.Brace []⟩ ∧
    parse2 (MetaAttrList.parse parseLit) [Tok.group Delim.paren [] 1] =
      Except.ok ⟨[]⟩ :=
  ⟨(list_grammars_empty_ok (parseKeyword kwTestList) [Tok.ident kwTestList 0]
      (Tok.ident kwTestList 0) (fun rest => by simp [parseKeyword])
      parseLit parseLit 1).1,
   (list_grammars_empty_ok (parseKeyword kwTestEnclosedList)
      [Tok.ident kwTestEnclosedList 0] (Tok.ident kwTestEnclosedList 0)
      (fun rest => by simp [parseKeyword]) parseLit parseLit 1).2.1,
   (list_grammars_empty_ok (parseKeyword kwTestEnclosedList)
      [Tok.ident kwTestEnclosedList 0] (Tok.ident kwTestEnclosedList 0)
      (fun rest => by simp [parseKeyword]) parseLit parseLit 1).2.2.1,
   (list_grammars_empty_ok (parseKeyword kwTestList) [Tok.ident kwTestList 0]
      (Tok.ident kwTestList 0) (fun rest => by simp [parseKeyword])
      parseLit parseLit 1).2.2.2⟩

/-- Claim C5: for every list-bearing grammar, an item sequence written with
a trailing comma parses successfully to exactly the same items, in the same
order, as the sequence without the trailing comma. -/
theorem list_trailing_comma_equiv
    (pk : P κ) (kts : List Tok) (k : κ) (hk : ParsesExactly pk kts k)
    (pi : P α) (pb : P β) (pp : P γ)
    (prs : List (List Tok × α)) (hne : prs ≠ [])
    (hitems : ∀ pr ∈ prs, ParsesExactly pi pr.1 pr.2 ∧ pr.1 ≠ [])
    (csp tsp gsp : Nat) :
    (parse2 (MetaList.parse pk pi)
        (kts ++ [Tok.group Delim.paren
          (joinComma csp (prs.map Prod.fst) ++ [Tok.punct ',' tsp]) gsp]) =
        Except.ok ⟨k, prs.map Prod.snd⟩ ∧
     parse2 (MetaList.parse pk pi)
        (kts ++ [Tok.group Delim.paren (joinComma csp (prs.map Prod.fst)) gsp]) =
        Except.ok ⟨k, prs.map Prod.snd⟩) ∧
    (parse2 (MetaAttrList.parse pi)
        [Tok.group Delim.paren
          (joinComma csp (prs.map Prod.fst) ++ [Tok.punct ',' tsp]) gsp] =
        Except.ok ⟨prs.map Prod.snd⟩ ∧
     parse2 (MetaAttrList.parse pi)
        [Tok.group Delim.paren (joinComma csp (prs.map Prod.fst)) gsp] =
        Except.ok ⟨prs.map Prod.snd⟩) ∧
    (parse2 (MetaEnclosedList.parse pk pi pb)
        (kts ++ [Tok.group Delim.paren
          (joinComma csp (prs.map Prod.fst) ++ [Tok.punct ',' tsp]) gsp]) =
        Except.ok ⟨k, Enclosure.Paren (prs.map Prod.snd)⟩ ∧
     parse2 (MetaEnclosedList.parse pk pi pb)
        (kts ++ [Tok.group Delim.paren (joinComma csp (prs.map Prod.fst)) gsp]) =
        Except.ok ⟨k, Enclosure.Paren (prs.map Prod.snd)⟩) ∧
    (parse2 (MetaEnclosedList.parse pk pp pi)
        (kts ++ [Tok.group Delim.brace
          (joinComma csp (prs.map Prod.fst) ++ [Tok.punct ',' tsp]) gsp]) =
        Except.ok ⟨k, Enclosure.Brace (prs.map Prod.snd)⟩ ∧
     parse2 (MetaEnclosedList.parse pk pp pi)
        (kts ++ [Tok.group Delim.brace (joinComma csp (prs.map Prod.fst)) gsp]) =
        Except.ok ⟨k, Enclosure.Brace (prs.map Prod.snd)⟩) := by
  have hterm := parseTerminated_joinComma pi csp prs hitems
  have htrail := parseTerminated_joinComma_trailing pi csp tsp prs hne hitems
  refine ⟨⟨?_, ?_⟩, ⟨?_, ?_⟩, ⟨?_, ?_⟩, ⟨?_, ?_⟩⟩ <;>
    simp [parse2, MetaList.parse, MetaAttrList.parse, MetaEnclosedList.parse,
      hk [Tok.group Delim.paren
        (joinComma csp (prs.map Prod.fst) ++ [Tok.punct ',' tsp]) gsp],
      hk [Tok.group Delim.paren (joinComma csp (prs.map Prod.fst)) gsp],
      hk [Tok.group Delim.brace
        (joinComma csp (prs.map Prod.fst) ++ [Tok.punct ',' tsp]) gsp],
      hk [Tok.group Delim.brace (joinComma csp (prs.map Prod.fst)) gsp],
      hterm, htrail]

/-- The empty literal suffix. -/
def sfxNone : String := ""

theorem list_trailing_comma_equiv_witness :
    parse2 (MetaList.parse (parseKeyword kwTestList) parseLit)
      [Tok.ident kwTestList 0,
       Tok.group Delim.paren
         [Tok.litInt 3 sfxU8 1, Tok.punct ',' 2, Tok.litInt 3 sfxU8 3,
          Tok.punct ',' 4] 5] =
      Except.ok ⟨Tok.ident kwTestList 0, [Tok.litInt 3 sfxU8 1, Tok.litInt 3 sfxU8 3]⟩ ∧
    parse2 (MetaList.parse (parseKeyword kwTestList) parseLit)
      [Tok.ident kwTestList 0,
       Tok.group Delim.paren
         [Tok.litInt 3 sfxU8 1, Tok.punct ',' 2, Tok.litInt 3 sfxU8 3] 5] =
      Except.ok ⟨Tok.ident kwTestList 0, [Tok.litInt 3 sfxU8 1, Tok.litInt 3 sfxU8 3]⟩ :=
  (list_trailing_comma_equiv (parseKeyword kwTestList) [Tok.ident kwTestList 0]
    (Tok.ident kwTestList 0) (fun rest => by simp [parseKeyword])
    parseLit parseLit parseLit
    [([Tok.litInt 3 sfxU8 1], Tok.litInt 3 sfxU8 1),
     ([Tok.litInt 3 sfxU8 3], Tok.litInt 3 sfxU8 3)]
    (by simp)
    (by
      intro pr hpr
      simp only [List.mem_cons, List.not_mem_nil, or_false] at hpr
      rcases hpr with rfl | rfl
      · exact ⟨fun rest => rfl, by simp⟩
      · exact ⟨fun rest => rfl, by simp⟩)
    2 4 5).1

/-- Claim C9: a successfully parsed `MetaList` node holds its items in input
order, and duplicate items are kept rather than rejected or merged: the
fields are exactly the item values, one per source item, in sequence. -/
theorem metaList_order_and_duplicates
    (pk : P κ) (kts : List Tok) (k : κ) (hk : ParsesExactly pk kts k)
    (pi : P α) (prs : List (List Tok × α))
    (hitems : ∀ pr ∈ prs, ParsesExactly pi pr.1 pr.2 ∧ pr.1 ≠ [])
    (csp gsp : Nat) :
    parse2 (MetaList.parse pk pi)
      (kts ++ [Tok.group Delim.paren (joinComma csp (prs.map Prod.fst)) gsp]) =
      Except.ok ⟨k, prs.map Prod.snd⟩ := by
  have hterm := parseTerminated_joinComma pi csp prs hitems
  simp [parse2, MetaList.parse,
    hk [Tok.group Delim.paren (joinComma csp (prs.map Prod.fst)) gsp], hterm]

theorem metaList_order_and_duplicates_witness :
    parse2 (MetaList.parse (parseKeyword kwTestList) parseLit)
      [Tok.ident kwTestList 0,
       Tok.group Delim.paren
         [Tok.litInt 3 sfxNone 1, Tok.punct ',' 2, Tok.litInt 3 sfxNone 3] 4] =
      Except.ok ⟨Tok.ident kwTestList 0,
        [Tok.litInt 3 sfxNone 1, Tok.litInt 3 sfxNone 3]⟩ :=
  metaList_order_and_duplicates (parseKeyword kwTestList) [Tok.ident kwTestList 0]
    (Tok.ident kwTestList 0) (fun rest => by simp [parseKeyword])
    parseLit
    [([Tok.litInt 3 sfxNone 1], Tok.litInt 3 sfxNone 1),
     ([Tok.litInt 3 sfxNone 3], Tok.litInt 3 sfxNone 3)]
    (by
      intro pr hpr
      simp only [List.mem_cons, List.not_mem_nil, or_false] at hpr
      rcases hpr with rfl | rfl
      · exact ⟨fun rest => rfl, by simp⟩
      · exact ⟨fun rest => rfl, by simp⟩)
    2 4

/-- Claim C6: delimiter strictness.  Parsing `K = (a, b)` with the list
grammar is an error (wrong delimiter, never coerced into a list); and
parsing `K(...)` with the value grammar delegates the whole group content
to the value grammar — the parse fails exactly when the value grammar
cannot consume the full content, and otherwise the value grammar's own
result applies. -/
theorem delimiter_strictness
    (pk : P κ) (kts : List Tok) (k : κ) (hk : ParsesExactly pk kts k)
    (pi : P α) (pv : P V) (esp : Nat) (rest : List Tok)
    (c : List Tok) (gsp : Nat) (rest2 : List Tok) :
    (∃ e, MetaList.parse pk pi (kts ++ Tok.punct '=' esp :: rest) =
      Except.error e) ∧
    MetaValue.parse pk pv (kts ++ Tok.group Delim.paren c gsp :: rest2) =
      (match pv c with
       | Except.ok (v, []) => Except.ok (⟨k, v⟩, rest2)
       | Except.ok (_, t :: _) => Except.error ⟨"unexpected token", tokSpan t⟩
       | Except.error e => Except.error e) := by
  constructor
  · exact ⟨⟨"expected parentheses", esp⟩,
      by simp [MetaList.parse, hk (Tok.punct '=' esp :: rest), tokSpan]⟩
  · cases hpc : pv c with
    | error e =>
      simp [MetaValue.parse, hk (Tok.group Delim.paren c gsp :: rest2), hpc]
    | ok vr =>
      obtain ⟨v, r⟩ := vr
      cases r with
      | nil =>
        simp [MetaValue.parse, hk (Tok.group Delim.paren c gsp :: rest2), hpc]
      | cons t r2 =>
        simp [MetaValue.parse, hk (Tok.group Delim.paren c gsp :: rest2), hpc]

theorem delimiter_strictness_witness :
    (∃ e, MetaList.parse (parseKeyword kwTestList) parseLit
      [Tok.ident kwTestList 0, Tok.punct '=' 1,
       Tok.group Delim.paren
         [Tok.litInt 3 sfxU8 2, Tok.punct ',' 3, Tok.litInt 3 sfxU8 4] 5] =
      Except.error e) ∧
    MetaValue.parse (parseKeyword kwTest) parseLit
      [Tok.ident kwTest 0,
       Tok.group Delim.paren
         [Tok.litInt 3 sfxU8 1, Tok.punct ',' 2, Tok.litInt 3 sfxU8 3] 4] =
      Except.error ⟨"unexpected token", 2⟩ :=
  ⟨(delimiter_strictness (parseKeyword kwTestList) [Tok.ident kwTestList 0]
      (Tok.ident kwTestList 0) (fun rest => by simp [parseKeyword])
      parseLit parseLit 1
      [Tok.group Delim.paren
        [Tok.litInt 3 sfxU8 2, Tok.punct ',' 3, Tok.litInt 3 sfxU8 4] 5]
      [] 4 []).1,
   Eq.trans
     ((delimiter_strictness (parseKeyword kwTest) [Tok.ident kwTest 0]
        (Tok.ident kwTest 0) (fun rest => by simp [parseKeyword])
        parseLit parseLit 1 []
        [Tok.litInt 3 sfxU8 1, Tok.punct ',' 2, Tok.litInt 3 sfxU8 3] 4 []).2)
     rfl⟩

/-- Claim C7: after the keyword, one token of lookahead selects the
`MetaEnclosedList` branch with no backtracking — a parenthesized group
commits to the `Paren` variant with the `ParenItem` grammar, a braced group
commits to the `Brace` variant with the `BraceItem` grammar (in each case
the final result is whatever that committed branch produces), and any other
next token, a square-bracketed group included, is an error. -/
theorem metaEnclosedList_bracket_disambiguation
    (pk : P κ) (kts : List Tok) (k : κ) (hk : ParsesExactly pk kts k)
    (pp : P π) (pb : P β) (c : List Tok) (gsp : Nat) (rest : List Tok) :
    (MetaEnclosedList.parse pk pp pb (kts ++ Tok.group Delim.paren c gsp :: rest) =
      match parseTerminated pp c with
      | Except.ok fs => Except.ok (⟨k, Enclosure.Paren fs⟩, rest)
      | Except.error e => Except.error e) ∧
    (MetaEnclosedList.parse pk pp pb (kts ++ Tok.group Delim.brace c gsp :: rest) =
      match parseTerminated pb c with
      | Except.ok fs => Except.ok (⟨k, Enclosure.Brace fs⟩, rest)
      | Except.error e => Except.error e) ∧
    MetaEnclosedList.parse pk pp pb (kts ++ Tok.group Delim.bracket c gsp :: rest) =
      Except.error ⟨"expected parentheses or curly braces", gsp⟩ ∧
    ∀ t rest2, (∀ c2 sp, t ≠ Tok.group Delim.paren c2 sp) →
      (∀ c2 sp, t ≠ Tok.group Delim.brace c2 sp) →
      MetaEnclosedList.parse pk pp pb (kts ++ t :: rest2) =
        Except.error ⟨"expected parentheses or curly braces", tokSpan t⟩ := by
  refine ⟨?_, ?_, ?_, ?_⟩
  · cases hpc : parseTerminated pp c with
    | ok fs =>
      simp [MetaEnclosedList.parse, hk (Tok.group Delim.paren c gsp :: rest), hpc]
    | error e =>
      simp [MetaEnclosedList.parse, hk (Tok.group Delim.paren c gsp :: rest), hpc]
  · cases hpc : parseTerminated pb c with
    | ok fs =>
      simp [MetaEnclosedList.parse, hk (Tok.group Delim.brace c gsp :: rest), hpc]
    | error e =>
      simp [MetaEnclosedList.parse, hk (Tok.group Delim.brace c gsp :: rest), hpc]
  · simp [MetaEnclosedList.parse, hk (Tok.group Delim.bracket c gsp :: rest), tokSpan]
  · intro t rest2 hp hb
    cases t with
    | ident n sp => simp [MetaEnclosedList.parse, hk (Tok.ident n sp :: rest2), tokSpan]
    | punct ch sp => simp [MetaEnclosedList.parse, hk (Tok.punct ch sp :: rest2), tokSpan]
    | litInt v sfx sp =>
      simp [MetaEnclosedList.parse, hk (Tok.litInt v sfx sp :: rest2), tokSpan]
    | group d c2 sp =>
      cases d with
      | paren => exact absurd rfl (hp c2 sp)
      | brace => exact absurd rfl (hb c2 sp)
      | bracket =>
        simp [MetaEnclosedList.parse, hk (Tok.group Delim.bracket c2 sp :: rest2), tokSpan]

theorem metaEnclosedList_bracket_disambiguation_witness :
    parse2 (MetaEnclosedList.parse (parseKeyword kwTestEnclosedList) parseLit parseLit)
      [Tok.ident kwTestEnclosedList 0,
       Tok.group Delim.paren
         [Tok.litInt 3 sfxU8 1, Tok.punct ',' 2, Tok.litInt 3 sfxU8 3] 4] =
      Except.ok ⟨Tok.ident kwTestEnclosedList 0,
        Enclosure.Paren [Tok.litInt 3 sfxU8 1, Tok.litInt 3 sfxU8 3]⟩ ∧
    parse2 (MetaEnclosedList.parse (parseKeyword kwTestEnclosedList) parseLit parseLit)
      [Tok.ident kwTestEnclosedList 0,
       Tok.group Delim.brace
         [Tok.litInt 3 sfxU8 1, Tok.punct ',' 2, Tok.litInt 3 sfxU8 3] 4] =
      Except.ok ⟨Tok.ident kwTestEnclosedList 0,
        Enclosure.Brace [Tok.litInt 3 sfxU8 1, Tok.litInt 3 sfxU8 3]⟩ ∧
    parse2 (MetaEnclosedList.parse (parseKeyword kwTestEnclosedList) parseLit parseLit)
      [Tok.ident kwTestEnclosedList 0,
       Tok.group Delim.bracket
         [Tok.litInt 3 sfxU8 1, Tok.punct ',' 2, Tok.litInt 3 sfxU8 3] 4] =
      Except.error ⟨"expected parentheses or curly braces", 4⟩ := by
  have h := metaEnclosedList_bracket_disambiguation
    (parseKeyword kwTestEnclosedList) [Tok.ident kwTestEnclosedList 0]
    (Tok.ident kwTestEnclosedList 0) (fun rest => by simp [parseKeyword])
    parseLit parseLit
    [Tok.litInt 3 sfxU8 1, Tok.punct ',' 2, Tok.litInt 3 sfxU8 3] 4 []
  refine ⟨?_, ?_, ?_⟩
  · show parse2 (MetaEnclosedList.parse (parseKeyword kwTestEnclosedList)
      parseLit parseLit)
      ([Tok.ident kwTestEnclosedList 0] ++ Tok.group Delim.paren
        [Tok.litInt 3 sfxU8 1, Tok.punct ',' 2, Tok.litInt 3 sfxU8 3] 4 :: []) = _
    rw [parse2, h.1]
    rfl
  · show parse2 (MetaEnclosedList.parse (parseKeyword kwTestEnclosedList)
      parseLit parseLit)
      ([Tok.ident kwTestEnclosedList 0] ++ Tok.group Delim.brace
        [Tok.litInt 3 sfxU8 1, Tok.punct ',' 2, Tok.litInt 3 sfxU8 3] 4 :: []) = _
    rw [parse2, h.2.1]
    rfl
  · show parse2 (MetaEnclosedList.parse (parseKeyword kwTestEnclosedList)
      parseLit parseLit)
      ([Tok.ident kwTestEnclosedList 0] ++ Tok.group Delim.bracket
        [Tok.litInt 3 sfxU8 1, Tok.punct ',' 2, Tok.litInt 3 sfxU8 3] 4 :: []) = _
    rw [parse2, h.2.2.1]

/-- Claim C8: `IdentTypeMaybeDefault` parsing — `name: Type` succeeds with
no default (`none`), `name: Type = expr` succeeds with the default present
(`some expr`), and a dangling `name: Type =` fails with the expression
grammar's own end-of-input error; the absent default is the `Option`'s
`none`, never an empty-expression sentinel. -/
theorem identTypeMaybeDefault_default_cases
    (pt : P τ) (pe : P ε) (n : String) (isp csp : Nat)
    (tyts : List Tok) (ty : τ) (hty : ParsesExactly pt tyts ty)
    (ets : List Tok) (ev : ε) (hev : pe ets = Except.ok (ev, []))
    (err : ParseError) (herr : pe [] = Except.error err) (esp : Nat) :
    parse2 (IdentTypeMaybeDefault.parse pt pe)
        (Tok.ident n isp :: Tok.punct ':' csp :: tyts) =
      Except.ok ⟨Tok.ident n isp, ty, none⟩ ∧
    parse2 (IdentTypeMaybeDefault.parse pt pe)
        (Tok.ident n isp :: Tok.punct ':' csp :: (tyts ++ Tok.punct '=' esp :: ets)) =
      Except.ok ⟨Tok.ident n isp, ty, some ev⟩ ∧
    parse2 (IdentTypeMaybeDefault.parse pt pe)
        (Tok.ident n isp :: Tok.punct ':' csp :: (tyts ++ [Tok.punct '=' esp])) =
      Except.error err := by
  have h1 : pt tyts = Except.ok (ty, []) := by simpa using hty []
  refine ⟨?_, ?_, ?_⟩
  · simp [parse2, IdentTypeMaybeDefault.parse, h1]
  · simp [parse2, IdentTypeMaybeDefault.parse,
      hty (Tok.punct '=' esp :: ets), hev]
  · simp [parse2, IdentTypeMaybeDefault.parse, hty [Tok.punct '=' esp], herr]

theorem identTypeMaybeDefault_default_cases_witness :
    parseLit [Tok.litInt 1 sfxNone 4] = Except.ok (Tok.litInt 1 sfxNone 4, []) ∧
    parseLit [] = Except.error ⟨"expected literal", 0⟩ ∧
    parse2 (IdentTypeMaybeDefault.parse (parseKeyword sfxU8) parseLit)
        [Tok.ident nameFoo 0, Tok.punct ':' 1, Tok.ident sfxU8 2] =
      Except.ok ⟨Tok.ident nameFoo 0, Tok.ident sfxU8 2, none⟩ ∧
    parse2 (IdentTypeMaybeDefault.parse (parseKeyword sfxU8) parseLit)
        [Tok.ident nameFoo 0, Tok.punct ':' 1, Tok.ident sfxU8 2,
         Tok.punct '=' 3, Tok.litInt 1 sfxNone 4] =
      Except.ok ⟨Tok.ident nameFoo 0, Tok.ident sfxU8 2, some (Tok.litInt 1 sfxNone 4)⟩ ∧
    parse2 (IdentTypeMaybeDefault.parse (parseKeyword sfxU8) parseLit)
        [Tok.ident nameFoo 0, Tok.punct ':' 1, Tok.ident sfxU8 2, Tok.punct '=' 3] =
      Except.error ⟨"expected literal", 0⟩ := by
  have h := identTypeMaybeDefault_default_cases (parseKeyword sfxU8) parseLit
    nameFoo 0 1 [Tok.ident sfxU8 2] (Tok.ident sfxU8 2)
    (fun rest => by simp [parseKeyword])
    [Tok.litInt 1 sfxNone 4] (Tok.litInt 1 sfxNone 4) rfl
    ⟨"expected literal", 0⟩ rfl 3
  exact ⟨rfl, rfl, h.1, h.2.1, h.2.2⟩
